import Mathlib

/-!
Verification of the core of `clean_MSA_loci.py`: a multiple-sequence-alignment
cleaner.  Text is modelled as `List Char` (one Python string = one list of
characters); a file is modelled as its list of lines; the ordered dictionary
`seqdict` is modelled as an association list that preserves insertion order and
whose update-in-place semantics mirror a Python `dict`.  Fallible operations
(Python exceptions: `IndexError` on `list(keys)[-1]`, `KeyError` on
`each_range['end']`, the two explicit `raise Exception` sites) are modelled
with `Option` / `Except`.
-/

namespace CleanMSA

/-- A record store: insertion-ordered mapping from header line to sequence,
modelling `self.seqdict`. -/
abbrev Store := List (List Char × List Char)

/-- Python `str.strip()` whitespace test for the ASCII whitespace characters
Python strips by default. -/
def isPySpace (c : Char) : Bool :=
  c = ' ' || c = '\t' || c = '\n' || c = '\r' || c = '\x0b' || c = '\x0c'

/-- Python `line.strip()`: drop leading and trailing whitespace. -/
def pyStrip (l : List Char) : List Char :=
  ((l.dropWhile isPySpace).reverse.dropWhile isPySpace).reverse

/-- Python `line.startswith('>')`. -/
def isHeader (l : List Char) : Bool :=
  l.head? = some '>'

/-- Python `self.seqdict[k] = v`: overwrite in place when the key exists
(keeping its position, as a Python dict does), otherwise append a new entry. -/
def dictSet (d : Store) (k v : List Char) : Store :=
  if d.any (fun p => p.1 == k) then
    d.map (fun p => if p.1 == k then (p.1, v) else p)
  else
    d ++ [(k, v)]

/-- `last_key = list(self.seqdict.keys())[-1]; self.seqdict[last_key] += line`:
append `s` to the value of the last entry.  (The empty-store `IndexError`
case is handled by the caller `read_lines`.) -/
def appendLast : Store → List Char → Store
  | [], _ => []
  | [p], s => [(p.1, p.2 ++ s)]
  | p :: q :: d, s => p :: appendLast (q :: d) s

/-- The read loop of `Sequence.read_file` / `Sequence.next_line`: each line is
stripped; a blank (stripped-empty) line ends the scan; a line starting with
`>` creates/resets a dictionary entry with empty value; any other line is
appended to the value of the last key.  `none` models the `IndexError` raised
by `list(self.seqdict.keys())[-1]` when the store is still empty. -/
def read_lines : List (List Char) → Store → Option Store
  | [], d => some d
  | l :: ls, d =>
    let s := pyStrip l
    if s.isEmpty then some d
    else if isHeader s then read_lines ls (dictSet d s [])
    else if d.isEmpty then none
    else read_lines ls (appendLast d s)

/-- One flank range, modelling the dictionaries in `self.flank_range_list`.
The `end` and `total` keys are absent (`none`) until the range is closed. -/
structure FlankRange where
  id : Nat
  start : Nat
  ends : Option Nat
  total : Option Nat
deriving DecidableEq, Repr

/-- `temp_dict = self.flank_range_list[-1]; temp_dict['end'] = pos-1;
temp_dict['total'] = temp_dict['end'] - temp_dict['start'] + 1`: close the
most recently opened range. -/
def closeLast : List FlankRange → Nat → List FlankRange
  | [], _ => []
  | [r], e => [{ r with ends := some e, total := some (e - r.start + 1) }]
  | r :: q :: rs, e => r :: closeLast (q :: rs) e

/-- The character scan of `Sequence.process_ref_genome`: walk the reference
sequence tracking the position `pos`, whether the previous character was a
gap (`prev`), and the next range id (`num`); open a range on a non-gap→gap
transition, close it on a gap→non-gap transition. -/
def scanRef : List Char → Nat → Bool → Nat → List FlankRange → List FlankRange
  | [], _, _, _, acc => acc
  | c :: cs, pos, prev, num, acc =>
    if c = '-' then
      if prev then scanRef cs (pos + 1) true num acc
      else scanRef cs (pos + 1) true (num + 1)
        (acc ++ [{ id := num, start := pos, ends := none, total := none }])
    else
      if prev then scanRef cs (pos + 1) false num (closeLast acc (pos - 1))
      else scanRef cs (pos + 1) false num acc

/-- Errors of the run, modelling the Python exceptions that abort it. -/
inductive RunError where
  /-- `IndexError`: a sequence line arrived before any header line. -/
  | noRecordOpen
  /-- `raise Exception(...)` when the reference store holds no record. -/
  | referenceNotFound
  /-- `raise Exception(...)` when the reference store holds several records. -/
  | ambiguousReference
  /-- `KeyError`: a flank range without an `end`/`total` key reached masking. -/
  | keyError
deriving DecidableEq, Repr

/-- `Sequence.process_ref_genome`: fail when the store holds more than one or
zero records, otherwise scan the single reference sequence into the flank
range list. -/
def process_ref_genome (d : Store) : Except RunError (List FlankRange) :=
  if d.length > 1 then .error .ambiguousReference
  else
    match d with
    | [] => .error .referenceNotFound
    | p :: _ => .ok (scanRef p.2 0 false 1 [])

/-- One step of the inner loop of `Sequence.process_aligned_seq`:
`value[:start] + '-'*total + value[end+1:]`.  `none` models the `KeyError`
raised by `each_range['end']` / `each_range['total']` when the range was
never closed. -/
def applyRange (v : List Char) (r : FlankRange) : Option (List Char) :=
  match r.ends, r.total with
  | some e, some t => some (v.take r.start ++ List.replicate t '-' ++ v.drop (e + 1))
  | _, _ => none

/-- The inner loop of `Sequence.process_aligned_seq`: apply every flank range
in order to one sequence, aborting on the first `KeyError`. -/
def maskSeq (v : List Char) : List FlankRange → Option (List Char)
  | [] => some v
  | r :: rs =>
    match applyRange v r with
    | none => none
    | some w => maskSeq w rs

/-- `Sequence.process_aligned_seq`: rewrite every record's sequence using the
flank ranges; an exception while masking any record aborts the run. -/
def process_aligned_seq (d : Store) (rs : List FlankRange) : Option Store :=
  match d with
  | [] => some []
  | p :: d' =>
    match maskSeq p.2 rs with
    | none => none
    | some w =>
      match process_aligned_seq d' rs with
      | none => none
      | some d'' => some ((p.1, w) :: d'')

/-- A flank range is closed and in bounds for a sequence of length `n`: its
`end` and `total` keys are present, `start ≤ end < n`, and
`total = end - start + 1`. -/
def rangeClosedIn (r : FlankRange) (n : Nat) : Bool :=
  match r.ends, r.total with
  | some e, some t => decide (r.start ≤ e ∧ e < n ∧ t = e - r.start + 1)
  | _, _ => false

/-- Column `i` lies inside the (closed) flank range `r`. -/
def inRange (i : Nat) (r : FlankRange) : Bool :=
  match r.ends with
  | some e => decide (r.start ≤ i ∧ i ≤ e)
  | none => false

/-- Range `a` ends strictly before range `b` starts (non-overlapping,
ascending order). -/
def beforeRange (a b : FlankRange) : Bool :=
  match a.ends with
  | some e => decide (e < b.start)
  | none => false

/-- The masking contract relating an input record `p` to an output record
`q`: same identifier, same sequence length, every column inside some range
is the gap character and every column outside all ranges is unchanged. -/
def maskedPointwise (rs : List FlankRange) (p q : List Char × List Char) : Prop :=
  q.1 = p.1 ∧ q.2.length = p.2.length ∧
    ∀ i, q.2[i]? = if rs.any (fun r => inRange i r) then some '-' else p.2[i]?

/-- The write loop of `Sequence.save_output`: one identifier line then one
sequence line per record, in insertion order. -/
def writeLines : Store → List (List Char)
  | [] => []
  | p :: d => p.1 :: p.2 :: writeLines d

/-- The whole run (`__main__`): read the reference file, extract the flank
ranges, read the alignment file, mask it, and produce the output lines.  Any
error aborts before the output is produced. -/
def runClean (refLines msaLines : List (List Char)) : Except RunError (List (List Char)) :=
  match read_lines refLines [] with
  | none => .error .noRecordOpen
  | some refStore =>
    match process_ref_genome refStore with
    | .error e => .error e
    | .ok rs =>
      match read_lines msaLines [] with
      | none => .error .noRecordOpen
      | some msaStore =>
        match process_aligned_seq msaStore rs with
        | none => .error .keyError
        | some d => .ok (writeLines d)

/-- Transcription of the specified loader contract (spec §4.1 and claim C7),
stated in the spec's own words rather than from the code: a line beginning
with the header marker starts a new record (appended at the end, identifier
the full line, sequence empty); any other non-blank line is appended to the
sequence of the most recently started record (`none` when there is none);
the first blank line terminates the scan. -/
def loaderSpecAux : List (List Char) → Store → Option Store
  | [], d => some d
  | l :: ls, d =>
    if l = [] then some d
    else if isHeader l then loaderSpecAux ls (d ++ [(l, [])])
    else if d.isEmpty then none
    else loaderSpecAux ls (appendLast d l)

/-- The specified loader run on a whole line stream. -/
def loaderSpec (ls : List (List Char)) : Option Store :=
  loaderSpecAux ls []

/-! ## Helper lemmas -/

theorem masked_length (v : List Char) (s e : Nat) (hse : s ≤ e) (hlt : e < v.length) :
    (v.take s ++ List.replicate (e - s + 1) '-' ++ v.drop (e + 1)).length = v.length := by
  simp only [List.length_append, List.length_take, List.length_replicate, List.length_drop]
  omega

theorem masked_getElem (v : List Char) (s e i : Nat) (hse : s ≤ e) (hlt : e < v.length) :
    (v.take s ++ List.replicate (e - s + 1) '-' ++ v.drop (e + 1))[i]? =
      if s ≤ i ∧ i ≤ e then some '-' else v[i]? := by
  simp only [List.getElem?_append, List.getElem?_take, List.getElem?_replicate,
    List.getElem?_drop, List.length_append, List.length_take, List.length_replicate]
  split_ifs <;> first
    | rfl
    | (exfalso; omega)
    | (congr 1; omega)

theorem rangeClosedIn_elim (r : FlankRange) (n : Nat) (h : rangeClosedIn r n = true) :
    ∃ e, r.ends = some e ∧ r.total = some (e - r.start + 1) ∧ r.start ≤ e ∧ e < n := by
  unfold rangeClosedIn at h
  cases he : r.ends with
  | none => rw [he] at h; exact absurd h (by simp)
  | some e =>
    cases ht : r.total with
    | none => rw [he, ht] at h; exact absurd h (by simp)
    | some t =>
      rw [he, ht] at h
      refine ⟨e, rfl, ?_, ?_, ?_⟩
      · have hd := of_decide_eq_true h
        rw [hd.2.2]
      · exact (of_decide_eq_true h).1
      · exact (of_decide_eq_true h).2.1

theorem maskSeq_closed (rs : List FlankRange) : ∀ (v : List Char),
    (∀ r ∈ rs, rangeClosedIn r v.length = true) →
    ∃ w, maskSeq v rs = some w ∧ w.length = v.length ∧
      ∀ i, w[i]? = if rs.any (fun r => inRange i r) then some '-' else v[i]? := by
  induction rs with
  | nil =>
    intro v _
    exact ⟨v, rfl, rfl, by intro i; simp [maskSeq]⟩
  | cons r rs ih =>
    intro v h
    obtain ⟨e, he, ht, hse, hlt⟩ := rangeClosedIn_elim r v.length (h r (by simp))
    set w1 := v.take r.start ++ List.replicate (e - r.start + 1) '-' ++ v.drop (e + 1) with hw1
    have happ : applyRange v r = some w1 := by
      unfold applyRange; rw [he, ht]
    have hlen1 : w1.length = v.length := masked_length v r.start e hse hlt
    have hget1 : ∀ i, w1[i]? = if r.start ≤ i ∧ i ≤ e then some '-' else v[i]? :=
      fun i => masked_getElem v r.start e i hse hlt
    obtain ⟨w, hw, hwlen, hwget⟩ := ih w1 (by
      intro r2 hr2
      rw [hlen1]
      exact h r2 (by simp [hr2]))
    refine ⟨w, ?_, by rw [hwlen, hlen1], ?_⟩
    · unfold maskSeq
      rw [happ]
      exact hw
    · intro i
      rw [hwget i, hget1 i]
      by_cases hc : r.start ≤ i ∧ i ≤ e
      · have : inRange i r = true := by unfold inRange; rw [he]; exact decide_eq_true hc
        simp [this, hc]
      · have : inRange i r = false := by
          unfold inRange; rw [he]; exact decide_eq_false hc
        simp [this, hc]

theorem process_aligned_closed (d : Store) (rs : List FlankRange)
    (h : ∀ p ∈ d, ∀ r ∈ rs, rangeClosedIn r p.2.length = true) :
    ∃ d', process_aligned_seq d rs = some d' ∧ List.Forall₂ (maskedPointwise rs) d d' := by
  induction d with
  | nil => exact ⟨[], rfl, List.Forall₂.nil⟩
  | cons p d ih =>
    obtain ⟨w, hw, hwlen, hwget⟩ := maskSeq_closed rs p.2 (h p (by simp))
    obtain ⟨d', hd', hall⟩ := ih (fun q hq => h q (by simp [hq]))
    refine ⟨(p.1, w) :: d', ?_, List.Forall₂.cons ⟨rfl, hwlen, hwget⟩ hall⟩
    unfold process_aligned_seq
    rw [hw, hd']

theorem process_aligned_keys (rs : List FlankRange) :
    ∀ (d d' : Store), process_aligned_seq d rs = some d' →
      d'.map Prod.fst = d.map Prod.fst ∧ d'.length = d.length := by
  intro d
  induction d with
  | nil =>
    intro d' h
    unfold process_aligned_seq at h
    cases h
    exact ⟨rfl, rfl⟩
  | cons p d ih =>
    intro d' h
    unfold process_aligned_seq at h
    cases hm : maskSeq p.2 rs with
    | none => rw [hm] at h; cases h
    | some w =>
      rw [hm] at h
      cases hr : process_aligned_seq d rs with
      | none => rw [hr] at h; cases h
      | some d'' =>
        rw [hr] at h
        cases h
        obtain ⟨h1, h2⟩ := ih d'' hr
        exact ⟨by simp [h1], by simp [h2]⟩

theorem maskSeq_idem (rs : List FlankRange) (v w : List Char)
    (h : ∀ r ∈ rs, rangeClosedIn r v.length = true)
    (hw : maskSeq v rs = some w) : maskSeq w rs = some w := by
  obtain ⟨w0, hw0, hlen0, hget0⟩ := maskSeq_closed rs v h
  have hww : w0 = w := by rw [hw0] at hw; exact Option.some.inj hw
  subst hww
  obtain ⟨w2, hw2, hlen2, hget2⟩ := maskSeq_closed rs w0 (by rw [hlen0]; exact h)
  have hsame : w2 = w0 := by
    apply List.ext_getElem?
    intro i
    rw [hget2 i]
    cases hany : rs.any (fun r => inRange i r) with
    | false => simp [hany]
    | true => rw [hget0 i, hany]; simp
  rw [hw2, hsame]

theorem process_aligned_idem (rs : List FlankRange) : ∀ (d : Store),
    (∀ p ∈ d, ∀ r ∈ rs, rangeClosedIn r p.2.length = true) →
    ∀ d', process_aligned_seq d rs = some d' → process_aligned_seq d' rs = some d' := by
  intro d
  induction d with
  | nil =>
    intro _ d' hd
    unfold process_aligned_seq at hd
    cases hd
    rfl
  | cons p d ih =>
    intro h d' hd
    unfold process_aligned_seq at hd
    cases hm : maskSeq p.2 rs with
    | none => rw [hm] at hd; cases hd
    | some w =>
      rw [hm] at hd
      cases hr : process_aligned_seq d rs with
      | none => rw [hr] at hd; cases hd
      | some d'' =>
        rw [hr] at hd
        cases hd
        have hmw : maskSeq w rs = some w := maskSeq_idem rs p.2 w (h p (by simp)) hm
        have hdw : process_aligned_seq d'' rs = some d'' :=
          ih (fun q hq => h q (by simp [hq])) d'' hr
        unfold process_aligned_seq
        rw [hmw, hdw]

/-- Invariant of the reference scan: whenever the previous character was a
gap, the range list is nonempty and its last entry is still open. -/
theorem scanRef_last_open : ∀ (cs : List Char) (pos : Nat) (prev : Bool) (num : Nat)
    (acc : List FlankRange),
    (prev = true → ∃ r, acc.getLast? = some r ∧ r.ends = none ∧ r.total = none) →
    (cs.getLast? = some '-' ∨ (cs = [] ∧ prev = true)) →
    ∃ r, (scanRef cs pos prev num acc).getLast? = some r ∧ r.ends = none ∧ r.total = none := by
  intro cs
  induction cs with
  | nil =>
    intro pos prev num acc hinv hlast
    rcases hlast with h | ⟨_, hp⟩
    · simp at h
    · exact hinv hp
  | cons c cs ih =>
    intro pos prev num acc hinv hlast
    have hlast' : cs.getLast? = some '-' ∨ (cs = [] ∧ c = '-') := by
      rcases hlast with h | ⟨h, _⟩
      · cases cs with
        | nil => right; constructor; rfl; simpa using h
        | cons b bs => left; simpa using h
      · cases h
    unfold scanRef
    by_cases hc : c = '-'
    · rw [if_pos hc]
      cases prev with
      | true =>
        simp only [if_pos rfl]
        apply ih
        · intro _; exact hinv rfl
        · rcases hlast' with h | ⟨h, _⟩
          · left; exact h
          · right; exact ⟨h, rfl⟩
      | false =>
        simp only [Bool.false_eq_true, if_neg]
        apply ih
        · intro _
          exact ⟨_, List.getLast?_concat acc, rfl, rfl⟩
        · rcases hlast' with h | ⟨h, _⟩
          · left; exact h
          · right; exact ⟨h, rfl⟩
    · rw [if_neg hc]
      cases prev with
      | true =>
        simp only [if_pos rfl]
        apply ih
        · intro h; cases h
        · rcases hlast' with h | ⟨_, h⟩
          · left; exact h
          · exact absurd h hc
      | false =>
        simp only [Bool.false_eq_true, if_neg]
        apply ih
        · intro h; cases h
        · rcases hlast' with h | ⟨_, h⟩
          · left; exact h
          · exact absurd h hc

/-- Masking fails with a `KeyError` as soon as the range list holds an entry
whose `end` key is absent. -/
theorem maskSeq_none_of_open : ∀ (rs : List FlankRange) (v : List Char) (r : FlankRange),
    r ∈ rs → r.ends = none → maskSeq v rs = none := by
  intro rs
  induction rs with
  | nil => intro v r hr; cases hr
  | cons r0 rs ih =>
    intro v r hr hre
    unfold maskSeq
    rcases List.mem_cons.mp hr with h | h
    · subst h
      unfold applyRange
      rw [hre]
    · cases ha : applyRange v r0 with
      | none => rfl
      | some w => exact ih w r h hre

theorem process_aligned_none (d : Store) (rs : List FlankRange) (r : FlankRange)
    (hr : r ∈ rs) (hre : r.ends = none) (hd : d ≠ []) :
    process_aligned_seq d rs = none := by
  cases d with
  | nil => exact absurd rfl hd
  | cons p d' =>
    unfold process_aligned_seq
    rw [maskSeq_none_of_open rs p.2 r hr hre]


theorem dictSet_fresh (d : Store) (k v : List Char) (h : k ∉ d.map Prod.fst) :
    dictSet d k v = d ++ [(k, v)] := by
  unfold dictSet
  rw [if_neg]
  intro hc
  obtain ⟨p, hp, hpk⟩ := List.any_eq_true.mp hc
  exact h (List.mem_map.mpr ⟨p, hp, by simpa using hpk⟩)

theorem appendLast_keys (s : List Char) : ∀ (d : Store),
    (appendLast d s).map Prod.fst = d.map Prod.fst := by
  intro d
  induction d with
  | nil => rfl
  | cons p d ih =>
    cases d with
    | nil => rfl
    | cons q d' =>
      show (p :: appendLast (q :: d') s).map Prod.fst = _
      simp only [List.map_cons]
      rw [ih]
      simp

theorem appendLast_snoc (k w s : List Char) : ∀ (acc : Store),
    appendLast (acc ++ [(k, w)]) s = acc ++ [(k, w ++ s)] := by
  intro acc
  induction acc with
  | nil => rfl
  | cons p acc ih =>
    cases acc with
    | nil => rfl
    | cons q acc' =>
      show p :: appendLast ((q :: acc') ++ [(k, w)]) s = p :: ((q :: acc') ++ [(k, w ++ s)])
      rw [ih]

theorem pyStrip_nil : pyStrip [] = [] := rfl

/-- Under clean input (every line free of surrounding whitespace, header lines
pairwise distinct) the code's read loop implements the specified loader. -/
theorem read_lines_eq_loaderSpec : ∀ (lines : List (List Char)) (d : Store),
    (∀ l ∈ lines, pyStrip l = l) →
    (d.map Prod.fst ++ lines.filter isHeader).Nodup →
    read_lines lines d = loaderSpecAux lines d := by
  intro lines
  induction lines with
  | nil => intro d _ _; rfl
  | cons l ls ih =>
    intro d hstrip hnodup
    have hsl : pyStrip l = l := hstrip l (by simp)
    show (if (pyStrip l).isEmpty then some d
      else if isHeader (pyStrip l) then read_lines ls (dictSet d (pyStrip l) [])
      else if d.isEmpty then none
      else read_lines ls (appendLast d (pyStrip l))) = _
    rw [hsl]
    by_cases hempty : l = []
    · subst hempty
      simp only [List.isEmpty_nil, if_pos]
      unfold loaderSpecAux
      rw [if_pos rfl]
    · rw [if_neg (by simpa using hempty)]
      by_cases hh : isHeader l = true
      · rw [if_pos hh]
        have hfil : (l :: ls).filter isHeader = l :: ls.filter isHeader :=
          List.filter_cons_of_pos hh
        rw [hfil] at hnodup
        have hfresh : l ∉ d.map Prod.fst := by
          rw [List.nodup_append] at hnodup
          exact fun hc => hnodup.2.2 hc (by simp)
        rw [dictSet_fresh d l [] hfresh]
        unfold loaderSpecAux
        rw [if_neg hempty, if_pos hh]
        apply ih
        · intro x hx; exact hstrip x (by simp [hx])
        · rw [List.map_append]
          have : (d.map Prod.fst ++ [(l, ([] : List Char))].map Prod.fst) ++ ls.filter isHeader
              = d.map Prod.fst ++ (l :: ls.filter isHeader) := by
            simp
          rw [this]
          exact hnodup
      · rw [if_neg hh]
        have hfil : (l :: ls).filter isHeader = ls.filter isHeader :=
          List.filter_cons_of_neg (by simpa using hh)
        rw [hfil] at hnodup
        unfold loaderSpecAux
        rw [if_neg hempty, if_neg hh]
        by_cases hd : d.isEmpty
        · rw [if_pos hd, if_pos hd]
        · rw [if_neg hd, if_neg hd]
          apply ih
          · intro x hx; exact hstrip x (by simp [hx])
          · rw [appendLast_keys]
            exact hnodup

/-- Unfolding equation for the read loop on a cons cell. -/
theorem read_lines_cons (l : List Char) (ls : List (List Char)) (d : Store) :
    read_lines (l :: ls) d =
      if (pyStrip l).isEmpty then some d
      else if isHeader (pyStrip l) then read_lines ls (dictSet d (pyStrip l) [])
      else if d.isEmpty then none
      else read_lines ls (appendLast d (pyStrip l)) := rfl

/-- Lines after the first blank line never contribute to the store. -/
theorem read_lines_blank_truncate : ∀ (pre post : List (List Char)) (d : Store),
    read_lines (pre ++ [] :: post) d = read_lines pre d := by
  intro pre
  induction pre with
  | nil => intro post d; rfl
  | cons l pre ih =>
    intro post d
    rw [List.cons_append, read_lines_cons, read_lines_cons]
    by_cases h1 : (pyStrip l).isEmpty
    · rw [if_pos h1, if_pos h1]
    · rw [if_neg h1, if_neg h1]
      by_cases h2 : isHeader (pyStrip l)
      · rw [if_pos h2, if_pos h2, ih]
      · rw [if_neg h2, if_neg h2]
        by_cases h3 : d.isEmpty
        · rw [if_pos h3, if_pos h3]
        · rw [if_neg h3, if_neg h3, ih]

/-- Round trip: reading back the written lines of a well-formed store (header
identifiers without surrounding whitespace or newlines, pairwise distinct;
non-empty single-line sequences that are not header-like) starting from any
accumulator reproduces the store after the accumulator. -/
theorem read_lines_writeLines : ∀ (d : Store) (acc : Store),
    (∀ p ∈ d, isHeader p.1 = true ∧ pyStrip p.1 = p.1 ∧ ('\n' : Char) ∉ p.1) →
    (∀ p ∈ d, p.2 ≠ [] ∧ pyStrip p.2 = p.2 ∧ isHeader p.2 = false ∧ ('\n' : Char) ∉ p.2) →
    (acc.map Prod.fst ++ d.map Prod.fst).Nodup →
    read_lines (writeLines d) acc = some (acc ++ d) := by
  intro d
  induction d with
  | nil => intro acc _ _ _; simp [writeLines, read_lines]
  | cons p d ih =>
    intro acc hk hv hnodup
    obtain ⟨hk1, hk2, _⟩ := hk p (by simp)
    obtain ⟨hv1, hv2, hv3, _⟩ := hv p (by simp)
    have hkne : p.1 ≠ [] := by
      intro hc
      rw [hc] at hk1
      cases hk1
    show read_lines (p.1 :: p.2 :: writeLines d) acc = _
    rw [read_lines_cons, hk2, if_neg (by simpa using hkne), if_pos hk1]
    have hfresh : p.1 ∉ acc.map Prod.fst := by
      rw [show (p :: d).map Prod.fst = p.1 :: d.map Prod.fst from rfl] at hnodup
      rw [List.nodup_append] at hnodup
      exact fun hc => hnodup.2.2 hc (by simp)
    rw [dictSet_fresh acc p.1 [] hfresh]
    rw [read_lines_cons, hv2, if_neg (by simpa using hv1), if_neg (by simp [hv3]),
      if_neg (by simp), appendLast_snoc]
    have : acc ++ [(p.1, [] ++ p.2)] = acc ++ [p] := by simp
    rw [this, ih (acc ++ [p]) (fun q hq => hk q (by simp [hq])) (fun q hq => hv q (by simp [hq]))]
    · rw [List.append_assoc]
      rfl
    · rw [List.map_append]
      have harr : (acc.map Prod.fst ++ [p].map Prod.fst) ++ d.map Prod.fst
          = acc.map Prod.fst ++ (p :: d).map Prod.fst := by simp
      rw [harr]
      exact hnodup

/-- C1 (counterexample): on the store holding only the reference sequence
`AC--GT--`, `process_ref_genome` does produce the closed range
`{id:1,start:2,end:3,total:2}` but its second range is `{id:2,start:6}` with
no `end` and no `total` (the trailing gap run is never closed), so the output
differs from the claimed pair of closed ranges. -/
theorem C1_extractor_example_counterexample :
    process_ref_genome [((">ref").toList, ("AC--GT--").toList)]
        = .ok [⟨1, 2, some 3, some 2⟩, ⟨2, 6, none, none⟩]
      ∧ ([⟨1, 2, some 3, some 2⟩, ⟨2, 6, none, none⟩] : List FlankRange)
        ≠ [⟨1, 2, some 3, some 2⟩, ⟨2, 6, some 7, some 2⟩] :=
  ⟨rfl, by decide⟩

/-- C1 (amended): for the reference sequence `AC--GT--` the Range Extractor
produces exactly two ranges, the closed `{id:1,start:2,end:3,total:2}` and
the open `{id:2,start:6}` whose `end`/`total` keys are absent because the
run reaches the end of the sequence. -/
theorem C1_extractor_example :
    process_ref_genome [((">ref").toList, ("AC--GT--").toList)]
      = .ok [⟨1, 2, some 3, some 2⟩, ⟨2, 6, none, none⟩] := rfl

/-- C2 (counterexample): for the reference `ACGT--` the trailing gap run is
not dropped from the Flank Range List: the list contains an (open) entry
`{id:1,start:4}` for columns 4-5, contradicting the claim that the run
contributes no range to the list consumed by masking. -/
theorem C2_trailing_run_counterexample :
    process_ref_genome [((">r").toList, ("ACGT--").toList)] = .ok [⟨1, 4, none, none⟩]
      ∧ ([⟨1, 4, none, none⟩] : List FlankRange) ≠ [] :=
  ⟨rfl, by decide⟩

/-- C2 (amended): for every reference sequence ending in a run of gap
characters, the Range Extractor never closes that final run: the flank range
list it produces is nonempty and its last entry has no `end` and no `total`
key; the run therefore never yields a closed range (though its open entry
stays in the list). -/
theorem C2_trailing_run_never_closed (k s : List Char)
    (h1 : s ≠ []) (h2 : s.getLast? = some '-') :
    ∃ rs r, process_ref_genome [(k, s)] = .ok rs
      ∧ rs.getLast? = some r ∧ r.ends = none ∧ r.total = none := by
  refine ⟨scanRef s 0 false 1 [], ?_⟩
  obtain ⟨r, hr, hre, hrt⟩ := scanRef_last_open s 0 false 1 []
    (by intro h; cases h) (Or.inl h2)
  exact ⟨r, rfl, hr, hre, hrt⟩

/-- C2 witness at the boundary example `ACGT--`. -/
theorem C2_trailing_run_never_closed_witness :
    ∃ rs r, process_ref_genome [((">r").toList, ("ACGT--").toList)] = .ok rs
      ∧ rs.getLast? = some r ∧ r.ends = none ∧ r.total = none :=
  C2_trailing_run_never_closed ((">r").toList) (("ACGT--").toList) (by decide) (by decide)

/-- C3: for every store and every list of closed, in-bounds, non-overlapping
ascending flank ranges, `process_aligned_seq` succeeds and relates every
record to an output record with the same identifier and length in which every
column inside some range is the gap character and every column outside all
ranges is unchanged; in particular the spec example masks `TTTTTTTT` into
`TT--TT--`. -/
theorem C3_mask_applier_pointwise (d : Store) (rs : List FlankRange)
    (hclosed : ∀ p ∈ d, ∀ r ∈ rs, rangeClosedIn r p.2.length = true)
    (hord : rs.Pairwise (fun a b => beforeRange a b = true)) :
    (∃ d', process_aligned_seq d rs = some d' ∧ List.Forall₂ (maskedPointwise rs) d d')
      ∧ process_aligned_seq [((">t").toList, ("TTTTTTTT").toList)]
          [⟨1, 2, some 3, some 2⟩, ⟨2, 6, some 7, some 2⟩]
        = some [((">t").toList, ("TT--TT--").toList)] :=
  ⟨process_aligned_closed d rs hclosed, by decide⟩

/-- C3 witness: a two-record store masked with one closed range. -/
theorem C3_mask_applier_pointwise_witness :
    (∃ d', process_aligned_seq [((">x").toList, ("AAAA").toList), ((">y").toList, ("CCCC").toList)]
          [⟨1, 1, some 2, some 2⟩] = some d'
        ∧ List.Forall₂ (maskedPointwise [⟨1, 1, some 2, some 2⟩])
            [((">x").toList, ("AAAA").toList), ((">y").toList, ("CCCC").toList)] d')
      ∧ process_aligned_seq [((">t").toList, ("TTTTTTTT").toList)]
          [⟨1, 2, some 3, some 2⟩, ⟨2, 6, some 7, some 2⟩]
        = some [((">t").toList, ("TT--TT--").toList)] :=
  C3_mask_applier_pointwise [((">x").toList, ("AAAA").toList), ((">y").toList, ("CCCC").toList)]
    [⟨1, 1, some 2, some 2⟩] (by decide) (by decide)

/-- C4: masking is idempotent: if applying the closed in-bounds flank ranges
to a store succeeds with result `d'`, applying them again to `d'` returns
`d'` unchanged. -/
theorem C4_masking_idempotent (d : Store) (rs : List FlankRange)
    (hclosed : ∀ p ∈ d, ∀ r ∈ rs, rangeClosedIn r p.2.length = true)
    (d' : Store) (hd : process_aligned_seq d rs = some d') :
    process_aligned_seq d' rs = some d' :=
  process_aligned_idem rs d hclosed d' hd

/-- C4 witness at the spec example. -/
theorem C4_masking_idempotent_witness :
    process_aligned_seq [((">t").toList, ("TT--TT--").toList)]
        [⟨1, 2, some 3, some 2⟩, ⟨2, 6, some 7, some 2⟩]
      = some [((">t").toList, ("TT--TT--").toList)] :=
  C4_masking_idempotent [((">t").toList, ("TTTTTTTT").toList)]
    [⟨1, 2, some 3, some 2⟩, ⟨2, 6, some 7, some 2⟩] (by decide)
    [((">t").toList, ("TT--TT--").toList)] (by decide)

/-- C5: the Mask Applier changes only sequence content: whenever
`process_aligned_seq` succeeds, the identifiers, their order, and the record
count are unchanged. -/
theorem C5_mask_applier_frame (d : Store) (rs : List FlankRange) (d' : Store)
    (h : process_aligned_seq d rs = some d') :
    d'.map Prod.fst = d.map Prod.fst ∧ d'.length = d.length :=
  process_aligned_keys rs d d' h

/-- C5 witness at the spec example. -/
theorem C5_mask_applier_frame_witness :
    ([((">t").toList, ("TT--TT--").toList)] : Store).map Prod.fst
        = ([((">t").toList, ("TTTTTTTT").toList)] : Store).map Prod.fst
      ∧ ([((">t").toList, ("TT--TT--").toList)] : Store).length
        = ([((">t").toList, ("TTTTTTTT").toList)] : Store).length :=
  C5_mask_applier_frame [((">t").toList, ("TTTTTTTT").toList)]
    [⟨1, 2, some 3, some 2⟩, ⟨2, 6, some 7, some 2⟩]
    [((">t").toList, ("TT--TT--").toList)] (by decide)

/-- C6: if the reference record store holds 0 records the run fails with the
reference-not-found error, and if it holds more than one it fails with the
ambiguous-reference error; in both cases `runClean` aborts before masking
and produces no output lines. -/
theorem C6_reference_count_errors (refLines msaLines : List (List Char)) (st : Store)
    (h : read_lines refLines [] = some st) :
    (st.length = 0 → process_ref_genome st = .error .referenceNotFound
        ∧ runClean refLines msaLines = .error .referenceNotFound)
      ∧ (st.length > 1 → process_ref_genome st = .error .ambiguousReference
        ∧ runClean refLines msaLines = .error .ambiguousReference) := by
  constructor
  · intro h0
    have hnil : st = [] := List.length_eq_zero.mp h0
    subst hnil
    refine ⟨rfl, ?_⟩
    unfold runClean
    rw [h]
    rfl
  · intro h1
    cases st with
    | nil => simp at h1
    | cons p t =>
      cases t with
      | nil => simp at h1
      | cons q t =>
        have hpr : process_ref_genome (p :: q :: t) = .error .ambiguousReference := by
          unfold process_ref_genome
          rw [if_pos (by simp)]
        refine ⟨hpr, ?_⟩
        unfold runClean
        rw [h]
        show (match process_ref_genome (p :: q :: t) with
          | Except.error e => Except.error e
          | Except.ok rs =>
            match read_lines msaLines [] with
            | none => Except.error RunError.noRecordOpen
            | some msaStore =>
              match process_aligned_seq msaStore rs with
              | none => Except.error RunError.keyError
              | some d => Except.ok (writeLines d)) = Except.error RunError.ambiguousReference
        rw [hpr]

/-- C6 witness: an empty reference file and a two-record reference file. -/
theorem C6_reference_count_errors_witness :
    (process_ref_genome ([] : Store) = .error .referenceNotFound
        ∧ runClean [] [(">a").toList, ("AA").toList] = .error .referenceNotFound)
      ∧ (process_ref_genome [((">a").toList, ("AA").toList), ((">b").toList, ("CC").toList)]
            = .error .ambiguousReference
        ∧ runClean [(">a").toList, ("AA").toList, (">b").toList, ("CC").toList] []
            = .error .ambiguousReference) :=
  ⟨(C6_reference_count_errors [] [(">a").toList, ("AA").toList] [] rfl).1 rfl,
   (C6_reference_count_errors [(">a").toList, ("AA").toList, (">b").toList, ("CC").toList] []
      [((">a").toList, ("AA").toList), ((">b").toList, ("CC").toList)] (by decide)).2 (by decide)⟩

/-- C9: when the reference sequence ends in a run of gaps, the flank range
list's last entry lacks the `end` and `total` keys, looking up `end` while
masking fails (modelled as `none`) already for the first record, and the
whole run aborts with the key-error before writing any output. -/
theorem C9_unclosed_range_key_error (k s : List Char) (refLines msaLines : List (List Char))
    (msaStore : Store)
    (h1 : s ≠ []) (h2 : s.getLast? = some '-')
    (h3 : read_lines refLines [] = some [(k, s)])
    (h4 : read_lines msaLines [] = some msaStore) (h5 : msaStore ≠ []) :
    ∃ rs r, process_ref_genome [(k, s)] = .ok rs
      ∧ rs.getLast? = some r ∧ r.ends = none ∧ r.total = none
      ∧ (∀ v, maskSeq v rs = none)
      ∧ process_aligned_seq msaStore rs = none
      ∧ runClean refLines msaLines = .error .keyError := by
  obtain ⟨r, hr, hre, hrt⟩ := scanRef_last_open s 0 false 1 []
    (by intro h; cases h) (Or.inl h2)
  refine ⟨scanRef s 0 false 1 [], r, rfl, hr, hre, hrt, ?_, ?_, ?_⟩
  · intro v
    exact maskSeq_none_of_open _ v r (List.mem_of_getLast?_eq_some hr) hre
  · exact process_aligned_none msaStore _ r (List.mem_of_getLast?_eq_some hr) hre h5
  · unfold runClean
    rw [h3]
    show (match process_ref_genome [(k, s)] with
      | Except.error e => Except.error e
      | Except.ok rs =>
        match read_lines msaLines [] with
        | none => Except.error RunError.noRecordOpen
        | some msaStore =>
          match process_aligned_seq msaStore rs with
          | none => Except.error RunError.keyError
          | some d => Except.ok (writeLines d)) = Except.error RunError.keyError
    have hpr : process_ref_genome [(k, s)] = .ok (scanRef s 0 false 1 []) := rfl
    rw [hpr, h4]
    show (match process_aligned_seq msaStore (scanRef s 0 false 1 []) with
      | none => Except.error RunError.keyError
      | some d => Except.ok (writeLines d)) = Except.error RunError.keyError
    rw [process_aligned_none msaStore _ r (List.mem_of_getLast?_eq_some hr) hre h5]

/-- C9 witness: reference `AC--` against a one-record alignment `TTTT`. -/
theorem C9_unclosed_range_key_error_witness :
    ∃ rs r, process_ref_genome [((">r").toList, ("AC--").toList)] = .ok rs
      ∧ rs.getLast? = some r ∧ r.ends = none ∧ r.total = none
      ∧ (∀ v, maskSeq v rs = none)
      ∧ process_aligned_seq [((">x").toList, ("TTTT").toList)] rs = none
      ∧ runClean [(">r").toList, ("AC--").toList] [(">x").toList, ("TTTT").toList]
          = .error .keyError :=
  C9_unclosed_range_key_error ((">r").toList) (("AC--").toList)
    [(">r").toList, ("AC--").toList] [(">x").toList, ("TTTT").toList]
    [((">x").toList, ("TTTT").toList)]
    (by decide) (by decide) (by decide) (by decide) (by decide)

/-- C7 (counterexample): a header line carrying trailing whitespace is stored
under the stripped text, not under the full line, so the loaded identifier is
not "that full line" as claimed. -/
theorem C7_full_line_counterexample :
    read_lines [(">a ").toList] [] = some [((">a").toList, [])]
      ∧ ((">a").toList : List Char) ≠ (">a ").toList :=
  ⟨by decide, by decide⟩

/-- C7 (amended): on a stream whose lines carry no surrounding whitespace and
whose header lines are pairwise distinct, the loader behaves exactly as
claimed (header line starts a new empty record named by the full line, other
non-blank lines are appended to the most recently started record, the first
blank line ends the scan); moreover, unconditionally, lines after a first
blank line never contribute to any record. -/
theorem C7_loader_refines_spec (lines : List (List Char))
    (hstrip : ∀ l ∈ lines, pyStrip l = l)
    (hnodup : (lines.filter isHeader).Nodup) :
    read_lines lines [] = loaderSpec lines
      ∧ ∀ pre post d, read_lines (pre ++ [] :: post) d = read_lines pre d := by
  constructor
  · unfold loaderSpec
    exact read_lines_eq_loaderSpec lines [] hstrip (by simpa using hnodup)
  · exact fun pre post d => read_lines_blank_truncate pre post d

/-- C7 witness: a two-record clean stream. -/
theorem C7_loader_refines_spec_witness :
    (read_lines [(">a").toList, ("AC").toList, (">b").toList, ("GT").toList] []
        = loaderSpec [(">a").toList, ("AC").toList, (">b").toList, ("GT").toList])
      ∧ ∀ pre post d, read_lines (pre ++ [] :: post) d = read_lines pre d :=
  C7_loader_refines_spec [(">a").toList, ("AC").toList, (">b").toList, ("GT").toList]
    (by decide) (by decide)

/-- C8 (counterexample): round-tripping fails for a store holding a record
with an empty sequence: the writer emits a blank sequence line, the loader
stops there, and the second record is lost. -/
theorem C8_roundtrip_counterexample :
    read_lines (writeLines [((">a").toList, []), ((">b").toList, ("C").toList)]) []
        = some [((">a").toList, [])]
      ∧ ([((">a").toList, ([] : List Char))] : Store)
        ≠ [((">a").toList, []), ((">b").toList, ("C").toList)] :=
  ⟨by decide, by decide⟩

/-- C8 (amended): for every store whose identifiers start with the header
marker, are free of surrounding whitespace and newlines, and are pairwise
distinct, and whose sequences are non-empty single lines that are not
header-like and carry no surrounding whitespace, writing the store and
reading the written lines back reproduces the store exactly. -/
theorem C8_roundtrip (d : Store)
    (hk : ∀ p ∈ d, isHeader p.1 = true ∧ pyStrip p.1 = p.1 ∧ ('\n' : Char) ∉ p.1)
    (hv : ∀ p ∈ d, p.2 ≠ [] ∧ pyStrip p.2 = p.2 ∧ isHeader p.2 = false ∧ ('\n' : Char) ∉ p.2)
    (hnodup : (d.map Prod.fst).Nodup) :
    read_lines (writeLines d) [] = some d := by
  have := read_lines_writeLines d [] hk hv (by simpa using hnodup)
  simpa using this

/-- C8 witness: a two-record store round-trips. -/
theorem C8_roundtrip_witness :
    read_lines (writeLines [((">a").toList, ("AC").toList), ((">b").toList, ("GT").toList)]) []
      = some [((">a").toList, ("AC").toList), ((">b").toList, ("GT").toList)] :=
  C8_roundtrip [((">a").toList, ("AC").toList), ((">b").toList, ("GT").toList)]
    (by decide) (by decide) (by decide)

/-- C10 (counterexample): in a stream whose first line is blank, the first
non-blank line is never reached: the loader stops at the blank line and
returns the empty store instead of failing, even though that first non-blank
line is not a header. -/
theorem C10_blank_then_sequence_counterexample :
    read_lines [[], ("AC").toList] [] = some []
      ∧ pyStrip (("AC").toList) ≠ [] ∧ isHeader (("AC").toList) = false :=
  ⟨by decide, by decide, by decide⟩

/-- C10 (amended): if the first line of the stream is non-blank after
stripping and does not start with the header marker, the loader fails (the
index error taking the last key of the empty store, modelled as `none`) and
no record is created. -/
theorem C10_sequence_before_header_fails (l : List Char) (ls : List (List Char))
    (h1 : pyStrip l ≠ []) (h2 : isHeader (pyStrip l) = false) :
    read_lines (l :: ls) [] = none := by
  rw [read_lines_cons, if_neg (by simpa using h1), if_neg (by simp [h2])]
  rfl

/-- C10 witness: a stream starting with a bare sequence line. -/
theorem C10_sequence_before_header_fails_witness :
    read_lines [("AC").toList, (">a").toList] [] = none :=
  C10_sequence_before_header_fails (("AC").toList) [(">a").toList] (by decide) (by decide)

end CleanMSA
